import Mathlib

/-!
Shallow embedding of the Ramadan notification bot (`src/bot.py`).

The Python program keeps a global `users` dict (`chat_id string -> {"city": key}`),
a static `CITIES` registry, a prayer-times HTTP client (`fetch_today`,
`fetch_ramadan`), a Google-Calendar seeding routine (`add_events_to_calendar`,
`oauth_callback`), two scheduled firings (`send_morning`, `send_evening`) and a
set of Telegram command handlers.  Chat ids are decimal strings in the store;
we model them by the underlying natural number (the `str`/`int` conversion is a
bijection on the canonical representations used by the program).  The store is
modelled as an association list with unique keys, mirroring dict semantics; the
`"city"` field of a record may be absent in loaded data, so a record is an
`Option String`.  Network and transport effects are modelled by explicit
oracles (the fetch outcome per city, the per-recipient delivery outcome, the
per-call calendar insert outcome).
-/

/-- The `DEFAULT_CITY` config constant. -/
def DEFAULT_CITY : String := "astana"

/-- The static `CITIES` registry: key, display name, API name (in source order). -/
def CITIES : List (String × String × String) :=
  [ ("astana", "Астана", "Astana")
  , ("almaty", "Алматы", "Almaty")
  , ("shymkent", "Шымкент", "Shymkent")
  , ("karaganda", "Караганда", "Karaganda")
  , ("aktobe", "Актобе", "Aktobe")
  , ("taraz", "Тараз", "Taraz")
  , ("pavlodar", "Павлодар", "Pavlodar")
  , ("ust-kamenogorsk", "Усть-Каменогорск", "Ust-Kamenogorsk")
  , ("semey", "Семей", "Semey")
  , ("atyrau", "Атырау", "Atyrau")
  , ("kostanay", "Костанай", "Kostanay")
  , ("petropavlovsk", "Петропавловск", "Petropavlovsk")
  , ("aktau", "Актау", "Aktau")
  , ("oral", "Уральск", "Oral")
  , ("kyzylorda", "Кызылорда", "Kyzylorda")
  , ("turkestan", "Туркестан", "Turkestan") ]

/-- Dict lookup `CITIES.get(city_key)`. -/
def city_entry (city_key : String) : Option (String × String × String) :=
  CITIES.find? (fun c => c.1 = city_key)

/-- `city_key in CITIES` (dict membership test). -/
def is_city_key (city_key : String) : Bool :=
  (city_entry city_key).isSome

/-- The registry entry for `DEFAULT_CITY` (`CITIES[DEFAULT_CITY]`). -/
def default_city_entry : String × String × String :=
  ("astana", "Астана", "Astana")

/-- `get_city_name`: `CITIES.get(city_key, CITIES[DEFAULT_CITY])["name"]`. -/
def get_city_name (city_key : String) : String :=
  ((city_entry city_key).getD default_city_entry).2.1

/-- `get_city_api`: `CITIES.get(city_key, CITIES[DEFAULT_CITY])["api"]`. -/
def get_city_api (city_key : String) : String :=
  ((city_entry city_key).getD default_city_entry).2.2

/-- A stored user record: the `"city"` field of the per-user dict, `none` when
the field is absent (the code reads it defensively with `.get("city", DEFAULT_CITY)`). -/
abbrev UserRec := Option String

/-- The `users` store: association list `chat_id -> record` with unique keys
(dict semantics). -/
abbrev Users := List (Nat × UserRec)

/-- Dict key lookup `users.get(str(chat_id))`. -/
def lookupKey : Users → Nat → Option UserRec
  | [], _ => none
  | kv :: rest, k => if kv.1 = k then some kv.2 else lookupKey rest k

/-- Dict assignment `users[str(chat_id)] = rec`: replace the existing binding
or append a new one. -/
def insertKey : Users → Nat → UserRec → Users
  | [], k, v => [(k, v)]
  | kv :: rest, k, v => if kv.1 = k then (k, v) :: rest else kv :: insertKey rest k v

/-- Dict removal `users.pop(str(chat_id), None)` (keys are unique in a dict,
so dropping every binding of the key is the same removal). -/
def eraseKey : Users → Nat → Users
  | [], _ => []
  | kv :: rest, k => if kv.1 = k then eraseKey rest k else kv :: eraseKey rest k

/-- The city of a record: `data.get("city", DEFAULT_CITY)`. -/
def cityOf (rec : UserRec) : String :=
  rec.getD DEFAULT_CITY

/-- `get_user_city`: `users.get(str(chat_id), {}).get("city", DEFAULT_CITY)`. -/
def get_user_city (us : Users) (chat_id : Nat) : String :=
  match lookupKey us chat_id with
  | none => DEFAULT_CITY
  | some rec => rec.getD DEFAULT_CITY

/-- Store effect of `cmd_start`: subscribe with the default city when the user
is not yet present (`if str(chat_id) not in users`). -/
def cmd_start (us : Users) (chat_id : Nat) : Users :=
  if lookupKey us chat_id = none then insertKey us chat_id (some DEFAULT_CITY) else us

/-- Store effect of `city_callback` on a `city:<key>` callback: ignore unknown
keys (`if city_key not in CITIES: return`), otherwise overwrite the record. -/
def city_callback (us : Users) (chat_id : Nat) (city_key : String) : Users :=
  if is_city_key city_key then insertKey us chat_id (some city_key) else us

/-- Store effect of `cmd_stop`: `users.pop(chat_id, None)`. -/
def cmd_stop (us : Users) (chat_id : Nat) : Users :=
  eraseKey us chat_id

/-- The legacy-shape migration in `load_users` and `migrate_old_subs`: a flat
list of chat ids becomes a dict mapping each id to the default city. -/
def migrate_legacy (legacy : List Nat) : Users :=
  legacy.map (fun cid => (cid, some DEFAULT_CITY))

/-- Leading whitespace removal (one side of Python `str.strip()`). -/
def dropSpace (l : List Char) : List Char :=
  l.dropWhile Char.isWhitespace

/-- `clean_time`: `raw.split(" ")[0].strip()`.  The first element of a
single-space split is the prefix of the string before the first space; `strip`
then trims whitespace on both ends.  Implemented over the character list. -/
def clean_time (raw : String) : String :=
  String.mk (((dropSpace (raw.data.takeWhile (fun c => c ≠ ' '))).reverse.dropWhile
    Char.isWhitespace).reverse)

/-- The dict returned by `fetch_today` (the shape of a daily-times value). -/
structure DayTimes where
  imsak : String
  fajr : String
  sunrise : String
  dhuhr : String
  asr : String
  maghrib : String
  isha : String
  hijri_day : String
  hijri_month : String
  hijri_month_number : Int
  date : String
  city_name : String
  deriving DecidableEq

/-- The `data.timings` object of a provider response; `none` marks a missing
key (dict access in the code raises `KeyError` on it). -/
structure RawTimings where
  imsak : Option String
  fajr : Option String
  sunrise : Option String
  dhuhr : Option String
  asr : Option String
  maghrib : Option String
  isha : Option String
  deriving DecidableEq

/-- The `data.date.hijri` object of a provider response.  `month_number` is
`some n` when `hijri["month"]["number"]` is present and `int()`-parseable
(a missing or unparseable value raises, like a missing key). -/
structure RawHijri where
  day : Option String
  month_en : Option String
  month_number : Option Int
  deriving DecidableEq

/-- The decoded JSON body down to the fields `fetch_today` reads.  `timings`
or `hijri` being `none` models any missing level of the nested dict path. -/
structure RawBody where
  timings : Option RawTimings
  hijri : Option RawHijri
  deriving DecidableEq

/-- An upstream HTTP response: status code and decoded body (`none` when
`resp.json()` itself raises on a non-JSON body). -/
structure HttpResponse where
  status : Nat
  body : Option RawBody
  deriving DecidableEq

/-- Outcome of one `fetch_today` call: `err` is the explicit `return None`
(FetchError), `exn` is an unhandled exception escaping the function, `ok` is a
fully populated times dict. -/
inductive FetchRes where
  | err : FetchRes
  | exn : FetchRes
  | ok : DayTimes → FetchRes
  deriving DecidableEq

/-- `fetch_today`, as a function of the provider response.  `date_str` is the
`datetime.now(TZ).strftime` string and `city_key` the requested city.  The code
returns `None` only on a non-200 status; every field extraction afterwards is
an unguarded dict access, so a missing field raises (`exn`). -/
def fetch_today (r : HttpResponse) (date_str : String) (city_key : String) : FetchRes :=
  if r.status ≠ 200 then .err
  else
    match r.body with
    | none => .exn
    | some b =>
      match b.timings, b.hijri with
      | some t, some h =>
        match t.imsak, t.fajr, t.sunrise, t.dhuhr, t.asr, t.maghrib, t.isha,
              h.day, h.month_en, h.month_number with
        | some v1, some v2, some v3, some v4, some v5, some v6, some v7,
          some hd, some hm, some hn =>
            .ok ⟨clean_time v1, clean_time v2, clean_time v3, clean_time v4,
                 clean_time v5, clean_time v6, clean_time v7,
                 hd, hm, hn, date_str, get_city_name city_key⟩
        | _, _, _, _, _, _, _, _, _, _ => .exn
      | _, _ => .exn

/-- Whether the decoded body carries every field `fetch_today` reads. -/
def body_complete (r : HttpResponse) : Bool :=
  match r.body with
  | none => false
  | some b =>
    match b.timings, b.hijri with
    | some t, some h =>
      t.imsak.isSome && t.fajr.isSome && t.sunrise.isSome && t.dhuhr.isSome &&
      t.asr.isSome && t.maghrib.isSome && t.isha.isSome &&
      h.day.isSome && h.month_en.isSome && h.month_number.isSome
    | _, _ => false

/-- Split a character list at every colon. -/
def split_colon : List Char → List (List Char)
  | [] => [[]]
  | c :: rest =>
    let r := split_colon rest
    if c = ':' then [] :: r else (c :: r.headD []) :: r.tail

/-- Parse a nonempty list of decimal digits. -/
def nat_of_digits : List Char → Option Nat → Option Nat
  | [], acc => acc
  | c :: rest, acc =>
    if c.isDigit then nat_of_digits rest (some ((acc.getD 0) * 10 + (c.toNat - 48)))
    else none

/-- Parse an `HH:MM` clock string (hours and minutes). -/
def parse_hm (s : String) : Option (Nat × Nat) :=
  match split_colon s.data with
  | [h, m] =>
    match nat_of_digits h none, nat_of_digits m none with
    | some hh, some mm => some (hh, mm)
    | _, _ => none
  | _ => none

/-- Minutes after midnight of an `HH:MM` clock string. -/
def to_minutes (s : String) : Option Nat :=
  (parse_hm s).map (fun p => p.1 * 60 + p.2)

/-- Modelled from the spec: the Daily Times invariant of the spec, that the seven
time fields are monotonically increasing across the day in the listed order
(imsak, fajr, sunrise, dhuhr, asr, maghrib, isha).  The source has no such
check; this definition exists only to state the claim against the code. -/
def spec_times_monotone (t : DayTimes) : Bool :=
  match to_minutes t.imsak, to_minutes t.fajr, to_minutes t.sunrise,
        to_minutes t.dhuhr, to_minutes t.asr, to_minutes t.maghrib,
        to_minutes t.isha with
  | some a, some b, some c, some d, some e, some f, some g =>
      decide (a < b ∧ b < c ∧ c < d ∧ d < e ∧ e < f ∧ f < g)
  | _, _, _, _, _, _, _ => false

/-- State of the subscription store: the in-memory `users` dict and the
content of `users.json` (`save_users` writes the whole dict through). -/
structure FireState where
  mem : Users
  disk : Users
  deriving DecidableEq

/-- One step of the `by_city` grouping loop: `by_city[city].append(chat_id)`
on a `defaultdict(list)` represented as an association list in first-seen
city order. -/
def addToGroup : List (String × List Nat) → String → Nat → List (String × List Nat)
  | [], c, k => [(c, [k])]
  | (c0, ids) :: rest, c, k =>
    if c0 = c then (c0, ids ++ [k]) :: rest else (c0, ids) :: addToGroup rest c k

/-- The grouping loop of `send_morning` and `send_evening`:
`for cid, data in users.items(): by_city[data.get("city", DEFAULT_CITY)].append(int(cid))`. -/
def groupAux : Users → List (String × List Nat) → List (String × List Nat)
  | [], acc => acc
  | (k, rec) :: rest, acc => groupAux rest (addToGroup acc (cityOf rec) k)

/-- The `by_city` grouping of the store. -/
def group_by_city (us : Users) : List (String × List Nat) :=
  groupAux us []

/-- The subscriber list of one city in a grouping (`[]` when absent). -/
def groupFind : List (String × List Nat) → String → List Nat
  | [], _ => []
  | (c0, ids) :: rest, c => if c0 = c then ids else groupFind rest c

/-- One delivery attempt of a firing: recipient, whether
`context.bot.send_message` succeeded, and the text sent. -/
abbrev Attempt := Nat × Bool × String

/-- The per-city delivery loop of a firing: try to send `text` to every
chat id; on an exception, `users.pop(str(chat_id), None)` followed by
`save_users(users)` (write-through of the whole dict). -/
def deliverAll (sendOk : Nat → Bool) (text : String) :
    List Nat → FireState → FireState × List Attempt
  | [], st => (st, [])
  | id :: rest, st =>
    if sendOk id then
      let res := deliverAll sendOk text rest st
      (res.1, (id, true, text) :: res.2)
    else
      let m := eraseKey st.mem id
      let res := deliverAll sendOk text rest ⟨m, m⟩
      (res.1, (id, false, text) :: res.2)

/-- The per-city loop of a firing.  `fetch` is the outcome of
`fetch_today(city_key)` for each city during this firing.  A `None` result or
a Hijri month other than 9 skips the city (`continue`); an exception escaping
`fetch_today` aborts the whole firing (nothing in the handler catches it). -/
def fireCities (render : String → DayTimes → String) (fetch : String → FetchRes)
    (sendOk : Nat → Bool) :
    List (String × List Nat) → FireState → FireState × List Attempt
  | [], st => (st, [])
  | (c, ids) :: rest, st =>
    match fetch c with
    | .exn => (st, [])
    | .err => fireCities render fetch sendOk rest st
    | .ok t =>
      if t.hijri_month_number = 9 then
        let res := deliverAll sendOk (render c t) ids st
        let res2 := fireCities render fetch sendOk rest res.1
        (res2.1, res.2 ++ res2.2)
      else fireCities render fetch sendOk rest st

/-- The morning message text of `send_morning`. -/
def morning_text (city_key : String) (t : DayTimes) : String :=
  "Доброе утро! День " ++ t.hijri_day ++ " Рамадана\nг. " ++ get_city_name city_key ++
  "\n\nСаһарлық (имсак): " ++ t.imsak ++ "\nФаджр: " ++ t.fajr ++
  "\n\nИфтар сегодня в " ++ t.maghrib ++ "\n\nХорошего дня и лёгкого поста!"

/-- The evening message text of `send_evening`. -/
def evening_text (city_key : String) (t : DayTimes) : String :=
  "Скоро ифтар! День " ++ t.hijri_day ++ " Рамадана\nг. " ++ get_city_name city_key ++
  "\n\nАуызашар (магриб): " ++ t.maghrib ++ "\nИша: " ++ t.isha ++
  "\n\nПриятного ифтара!"

/-- `send_morning`: early return on an empty store, then group by city and
fan out. -/
def send_morning (fetch : String → FetchRes) (sendOk : Nat → Bool)
    (st : FireState) : FireState × List Attempt :=
  if st.mem.isEmpty then (st, [])
  else fireCities morning_text fetch sendOk (group_by_city st.mem) st

/-- `send_evening`: same control flow as `send_morning` with the evening text. -/
def send_evening (fetch : String → FetchRes) (sendOk : Nat → Bool)
    (st : FireState) : FireState × List Attempt :=
  if st.mem.isEmpty then (st, [])
  else fireCities evening_text fetch sendOk (group_by_city st.mem) st

/-- One entry of the `fetch_ramadan` result.  The Gregorian date is a
`datetime` at local midnight; `ord` is its ordinal (dates compare by it),
`mday`, `month` and `weekday` are the calendar views `cmd_schedule` reads
(`weekday()` is 0 for Monday). -/
structure GDate where
  ord : Nat
  mday : Nat
  month : Nat
  weekday : Fin 7
  deriving DecidableEq

/-- One day of the month schedule returned by `fetch_ramadan`. -/
structure SeedDay where
  date : GDate
  hijri_day : Int
  imsak : String
  fajr : String
  maghrib : String
  isha : String
  deriving DecidableEq

/-- The calendar bulk insert `add_events_to_calendar`.  Two `events().insert`
calls per day (Suhoor then Iftar), in order; `insertOk i` is whether the
`i`-th `.execute()` call (counting from `idx`) returns rather than raises.
The code has no exception handling here, so a raising insert propagates out
(`Except.error`); on success `count` is incremented by one per insert and
returned at the end.  The result also carries how many inserts were attempted. -/
def add_events_to_calendar (insertOk : Nat → Bool) :
    List SeedDay → Nat → Nat → Nat × Except Unit Nat
  | [], _, count => (0, .ok count)
  | _ :: rest, idx, count =>
    if insertOk idx then
      if insertOk (idx + 1) then
        let res := add_events_to_calendar insertOk rest (idx + 2) (count + 2)
        (res.1 + 2, res.2)
      else (2, .error ())
    else (1, .error ())

/-- The seeding-input selection of `oauth_callback`:
`remaining = [d for d in days if d["date"] >= today]` and
`target = remaining if remaining else days`. -/
def seed_target (days : List SeedDay) (today : GDate) : List SeedDay :=
  let remaining := days.filter (fun d => today.ord ≤ d.date.ord)
  if remaining.isEmpty then days else remaining

/-- The `WEEKDAYS_RU` table (`weekday()` 0 = Monday). -/
def WEEKDAYS_RU : Fin 7 → String
  | 0 => "Пн"
  | 1 => "Вт"
  | 2 => "Ср"
  | 3 => "Чт"
  | 4 => "Пт"
  | 5 => "Сб"
  | 6 => "Вс"

/-- The `MONTHS_RU` table.  A real `datetime` month is always 1 to 12, so the
out-of-range default is unreachable (the Python dict lookup would raise). -/
def MONTHS_RU (m : Nat) : String :=
  match m with
  | 1 => "янв"
  | 2 => "фев"
  | 3 => "мар"
  | 4 => "апр"
  | 5 => "май"
  | 6 => "июн"
  | 7 => "июл"
  | 8 => "авг"
  | 9 => "сен"
  | 10 => "окт"
  | 11 => "ноя"
  | 12 => "дек"
  | _ => ""

/-- The header `cmd_schedule` starts its first chunk with. -/
def schedule_header (city_key : String) : String :=
  "РАСПИСАНИЕ РАМАДАНА 2026\nг. " ++ get_city_name city_key ++ "\n"

/-- One rendered day entry of `cmd_schedule` (the `line` built per day,
including the today marker when the entry date equals the current date). -/
def render_day_line (today : GDate) (day : SeedDay) : String :=
  "\nДень " ++ toString day.hijri_day ++ " | " ++ WEEKDAYS_RU day.date.weekday ++
  ", " ++ toString day.date.mday ++ " " ++ MONTHS_RU day.date.month ++
  "\n  Сухур:  " ++ day.imsak ++ "  |  Ифтар: " ++ day.maghrib ++
  (if day.date.ord = today.ord then " <<< сегодня" else "") ++ "\n"

/-- The chunking loop of `cmd_schedule` over the rendered day entries:
flush `current` into `chunks` whenever appending the next entry would push it
past 4000 characters, then append the entry to the (possibly reset)
accumulator; a final nonempty accumulator becomes the last chunk. -/
def chunk_loop : List String → String → List String
  | [], current => if current = "" then [] else [current]
  | line :: rest, current =>
    if 4000 < current.length + line.length then
      current :: chunk_loop rest line
    else
      chunk_loop rest (current ++ line)

/-- The chunks `cmd_schedule` sends for a fetched schedule: the loop starts
from the header and appends one rendered entry per day. -/
def schedule_chunks (city_key : String) (today : GDate) (days : List SeedDay) : List String :=
  chunk_loop (days.map (render_day_line today)) (schedule_header city_key)

/-- Concatenation of a list of strings (in order). -/
def joinAll : List String → String
  | [] => ""
  | s :: rest => s ++ joinAll rest

/-- Every city key stored in the subscription store is a key of the `CITIES`
registry (records with a missing city field carry no key). -/
def StoreValid (us : Users) : Prop :=
  ∀ kv ∈ us, ∀ c, kv.2 = some c → is_city_key c = true

/-- A syntactically well formed provider response whose seven time fields are
not monotonically increasing (the first one is in the late evening). -/
def bad_order_response : HttpResponse :=
  ⟨200, some ⟨some ⟨some "23:00", some "01:00", some "02:00", some "03:00",
    some "04:00", some "05:00", some "06:00"⟩,
    some ⟨some "11", some "Ramadan", some 9⟩⟩⟩

/-- The times dict `fetch_today` builds from `bad_order_response`. -/
def bad_order_times : DayTimes :=
  ⟨"23:00", "01:00", "02:00", "03:00", "04:00", "05:00", "06:00",
   "11", "Ramadan", 9, "01.03.2026", "Астана"⟩

/-- An insert oracle failing exactly on the first `events().insert` call. -/
def first_insert_fails : Nat → Bool := fun i => decide (0 < i)

/-- A concrete schedule day. -/
def sample_day1 : SeedDay := ⟨⟨1, 1, 3, 0⟩, 1, "05:31", "06:01", "18:28", "19:58"⟩

/-- Another concrete schedule day. -/
def sample_day2 : SeedDay := ⟨⟨2, 2, 3, 1⟩, 2, "05:29", "05:59", "18:30", "20:00"⟩

/-- A concrete two-day schedule (four insert calls when fully seeded). -/
def two_sample_days : List SeedDay := [sample_day1, sample_day2]

/-- A concrete fully populated times dict for the observance month. -/
def sample_times : DayTimes :=
  ⟨"05:31", "06:01", "07:30", "12:24", "15:20", "18:28", "19:58",
   "11", "Ramadan", 9, "01.03.2026", "Астана"⟩

/-- A concrete store state with a single subscriber. -/
def one_user_state : FireState :=
  ⟨[(5, some "astana")], [(5, some "astana")]⟩

/-! ## Store lemmas -/

theorem lookupKey_insert_self (us : Users) (k : Nat) (v : UserRec) :
    lookupKey (insertKey us k v) k = some v := by
  induction us with
  | nil => simp [insertKey, lookupKey]
  | cons kv rest ih =>
    by_cases h : kv.1 = k
    · simp [insertKey, h, lookupKey]
    · simp [insertKey, h, lookupKey, ih]

theorem lookupKey_erase_self (us : Users) (k : Nat) :
    lookupKey (eraseKey us k) k = none := by
  induction us with
  | nil => rfl
  | cons kv rest ih =>
    by_cases h : kv.1 = k
    · simp [eraseKey, h, ih]
    · simp [eraseKey, h, lookupKey, ih]

theorem lookupKey_erase_ne (us : Users) (k k' : Nat) (h : k' ≠ k) :
    lookupKey (eraseKey us k) k' = lookupKey us k' := by
  induction us with
  | nil => rfl
  | cons kv rest ih =>
    by_cases h1 : kv.1 = k
    · simp [eraseKey, h1, lookupKey, ih, Ne.symm h]
    · by_cases h2 : kv.1 = k'
      · simp [eraseKey, h1, lookupKey, h2, h]
      · simp [eraseKey, h1, lookupKey, h2, ih]

theorem mem_of_mem_erase {us : Users} {k : Nat} {kv : Nat × UserRec} :
    kv ∈ eraseKey us k → kv ∈ us := by
  induction us with
  | nil => intro h; simp [eraseKey] at h
  | cons kv0 rest ih =>
    intro h
    by_cases h1 : kv0.1 = k
    · rw [eraseKey, if_pos h1] at h
      exact List.mem_cons_of_mem _ (ih h)
    · rw [eraseKey, if_neg h1] at h
      rcases List.mem_cons.mp h with he | hm
      · exact he ▸ List.mem_cons_self _ _
      · exact List.mem_cons_of_mem _ (ih hm)

theorem not_mem_of_lookupKey_eq_none {us : Users} {u : Nat} :
    lookupKey us u = none → ∀ v, (u, v) ∉ us := by
  induction us with
  | nil => intro _ v hv; simp at hv
  | cons kv rest ih =>
    intro h v hv
    by_cases h1 : kv.1 = u
    · simp [lookupKey, h1] at h
    · rw [lookupKey, if_neg h1] at h
      rcases List.mem_cons.mp hv with he | hm
      · exact h1 (by rw [← he])
      · exact ih h v hm

/-! ## Theorems for claims C8 and C9 -/

/-- C8: for every user id not present in the store, `get_user_city` returns the
default city without failing, and for every user id, subscribing
(`cmd_start`) and then unsubscribing (`cmd_stop`) leaves `get_user_city`
returning the default city. -/
theorem c8_unknown_and_unsubscribed_default (us : Users) (chat_id : Nat) :
    (lookupKey us chat_id = none → get_user_city us chat_id = DEFAULT_CITY) ∧
    get_user_city (cmd_stop (cmd_start us chat_id) chat_id) chat_id = DEFAULT_CITY := by
  constructor
  · intro h
    simp [get_user_city, h]
  · simp [cmd_stop, get_user_city, lookupKey_erase_self]

/-- Witness for C8 at a concrete input. -/
theorem c8_unknown_and_unsubscribed_default_witness :
    (lookupKey [] 5 = none ∧ get_user_city [] 5 = DEFAULT_CITY) ∧
    get_user_city (cmd_stop (cmd_start [] 5) 5) 5 = DEFAULT_CITY :=
  ⟨⟨rfl, (c8_unknown_and_unsubscribed_default [] 5).1 rfl⟩,
   (c8_unknown_and_unsubscribed_default [] 5).2⟩

/-- C9: subscribing a user and then selecting a valid registry city through
the city callback makes `get_user_city` return that city (get-after-set). -/
theorem c9_set_city_get_city (us : Users) (chat_id : Nat) (city_key : String)
    (h : is_city_key city_key = true) :
    get_user_city (city_callback (cmd_start us chat_id) chat_id city_key) chat_id = city_key := by
  simp [city_callback, h, get_user_city, lookupKey_insert_self]

/-- Witness for C9 at a concrete input. -/
theorem c9_set_city_get_city_witness :
    is_city_key "almaty" = true ∧
    get_user_city (city_callback (cmd_start [] 5) 5 "almaty") 5 = "almaty" :=
  ⟨by decide, c9_set_city_get_city [] 5 "almaty" (by decide)⟩

/-! ## Theorem for claim C6 -/

/-- C6: the calendar seeding workflow seeds exactly the entries dated on or
after today when that filter is nonempty, and falls back to the entire
unfiltered month when the filter is empty. -/
theorem c6_seed_target_filter_or_fallback (days : List SeedDay) (today : GDate) :
    (days.filter (fun d => today.ord ≤ d.date.ord) ≠ [] →
      seed_target days today = days.filter (fun d => today.ord ≤ d.date.ord)) ∧
    (days.filter (fun d => today.ord ≤ d.date.ord) = [] →
      seed_target days today = days) := by
  constructor
  · intro h
    rw [seed_target, if_neg (by simpa using h)]
  · intro h
    rw [seed_target, if_pos (by simpa using h)]

/-- Witness for C6: one schedule where the filter is nonempty and one where it
is empty. -/
theorem c6_seed_target_filter_or_fallback_witness :
    (([⟨⟨10, 1, 3, 0⟩, 1, "05:00", "05:30", "18:30", "20:00"⟩] : List SeedDay).filter
        (fun d => (⟨8, 1, 3, 0⟩ : GDate).ord ≤ d.date.ord) ≠ [] ∧
      seed_target [⟨⟨10, 1, 3, 0⟩, 1, "05:00", "05:30", "18:30", "20:00"⟩] ⟨8, 1, 3, 0⟩ =
        [⟨⟨10, 1, 3, 0⟩, 1, "05:00", "05:30", "18:30", "20:00"⟩]) ∧
    (([⟨⟨10, 1, 3, 0⟩, 1, "05:00", "05:30", "18:30", "20:00"⟩] : List SeedDay).filter
        (fun d => (⟨20, 1, 3, 0⟩ : GDate).ord ≤ d.date.ord) = [] ∧
      seed_target [⟨⟨10, 1, 3, 0⟩, 1, "05:00", "05:30", "18:30", "20:00"⟩] ⟨20, 1, 3, 0⟩ =
        [⟨⟨10, 1, 3, 0⟩, 1, "05:00", "05:30", "18:30", "20:00"⟩]) := by
  refine ⟨⟨by decide, ?_⟩, ⟨by decide, ?_⟩⟩
  · have h := (c6_seed_target_filter_or_fallback
      [⟨⟨10, 1, 3, 0⟩, 1, "05:00", "05:30", "18:30", "20:00"⟩] ⟨8, 1, 3, 0⟩).1 (by decide)
    rw [h]; decide
  · exact (c6_seed_target_filter_or_fallback
      [⟨⟨10, 1, 3, 0⟩, 1, "05:00", "05:30", "18:30", "20:00"⟩] ⟨20, 1, 3, 0⟩).2 (by decide)

/-! ## Store validity (claim C10) -/

theorem storeValid_insert {us : Users} (h : StoreValid us) {k : Nat} {c : String}
    (hc : is_city_key c = true) : StoreValid (insertKey us k (some c)) := by
  induction us with
  | nil =>
    intro kv hkv c0 hc0
    simp [insertKey] at hkv
    subst hkv
    simp at hc0
    subst hc0
    exact hc
  | cons kv0 rest ih =>
    intro kv hkv c0 hc0
    by_cases h1 : kv0.1 = k
    · rw [insertKey, if_pos h1] at hkv
      rcases List.mem_cons.mp hkv with he | hm
      · rw [he] at hc0; cases hc0; exact hc
      · exact h kv (List.mem_cons_of_mem _ hm) c0 hc0
    · rw [insertKey, if_neg h1] at hkv
      rcases List.mem_cons.mp hkv with he | hm
      · exact h kv (he ▸ List.mem_cons_self _ _) c0 hc0
      · exact ih (fun kv1 hkv1 => h kv1 (List.mem_cons_of_mem _ hkv1)) kv hm c0 hc0

theorem storeValid_erase {us : Users} (h : StoreValid us) (k : Nat) :
    StoreValid (eraseKey us k) :=
  fun kv hkv => h kv (mem_of_mem_erase hkv)

theorem deliverAll_cons_ok {sendOk : Nat → Bool} {text : String} {id : Nat}
    {ids : List Nat} {st : FireState} (h : sendOk id = true) :
    deliverAll sendOk text (id :: ids) st =
      ((deliverAll sendOk text ids st).1,
       (id, true, text) :: (deliverAll sendOk text ids st).2) := by
  rw [deliverAll, if_pos h]

theorem deliverAll_cons_fail {sendOk : Nat → Bool} {text : String} {id : Nat}
    {ids : List Nat} {st : FireState} (h : sendOk id = false) :
    deliverAll sendOk text (id :: ids) st =
      ((deliverAll sendOk text ids ⟨eraseKey st.mem id, eraseKey st.mem id⟩).1,
       (id, false, text) ::
         (deliverAll sendOk text ids ⟨eraseKey st.mem id, eraseKey st.mem id⟩).2) := by
  rw [deliverAll, if_neg (by simp [h])]

theorem fireCities_cons_exn {render : String → DayTimes → String}
    {fetch : String → FetchRes} {sendOk : Nat → Bool} {c : String}
    {ids : List Nat} {rest : List (String × List Nat)} {st : FireState}
    (h : fetch c = .exn) :
    fireCities render fetch sendOk ((c, ids) :: rest) st = (st, []) := by
  rw [fireCities, h]

theorem fireCities_cons_err {render : String → DayTimes → String}
    {fetch : String → FetchRes} {sendOk : Nat → Bool} {c : String}
    {ids : List Nat} {rest : List (String × List Nat)} {st : FireState}
    (h : fetch c = .err) :
    fireCities render fetch sendOk ((c, ids) :: rest) st =
      fireCities render fetch sendOk rest st := by
  rw [fireCities, h]

theorem fireCities_cons_ok {render : String → DayTimes → String}
    {fetch : String → FetchRes} {sendOk : Nat → Bool} {c : String}
    {ids : List Nat} {rest : List (String × List Nat)} {st : FireState}
    {t : DayTimes} (h : fetch c = .ok t) :
    fireCities render fetch sendOk ((c, ids) :: rest) st =
      if t.hijri_month_number = 9 then
        ((fireCities render fetch sendOk rest
            (deliverAll sendOk (render c t) ids st).1).1,
         (deliverAll sendOk (render c t) ids st).2 ++
           (fireCities render fetch sendOk rest
             (deliverAll sendOk (render c t) ids st).1).2)
      else fireCities render fetch sendOk rest st := by
  rw [fireCities, h]

theorem deliverAll_mem_subset (sendOk : Nat → Bool) (text : String) :
    ∀ (ids : List Nat) (st : FireState) (kv : Nat × UserRec),
      kv ∈ (deliverAll sendOk text ids st).1.mem → kv ∈ st.mem := by
  intro ids
  induction ids with
  | nil => intro st kv h; exact h
  | cons id rest ih =>
    intro st kv h
    by_cases hs : sendOk id
    · rw [deliverAll_cons_ok hs] at h
      exact ih st kv h
    · rw [deliverAll_cons_fail (by simpa using hs)] at h
      exact mem_of_mem_erase (ih _ kv h)

theorem fireCities_mem_subset (render : String → DayTimes → String)
    (fetch : String → FetchRes) (sendOk : Nat → Bool) :
    ∀ (groups : List (String × List Nat)) (st : FireState) (kv : Nat × UserRec),
      kv ∈ (fireCities render fetch sendOk groups st).1.mem → kv ∈ st.mem := by
  intro groups
  induction groups with
  | nil => intro st kv h; exact h
  | cons g rest ih =>
    intro st kv h
    obtain ⟨c, ids⟩ := g
    rcases hf : fetch c with _ | _ | t
    · rw [fireCities_cons_err hf] at h
      exact ih st kv h
    · rw [fireCities_cons_exn hf] at h
      exact h
    · rw [fireCities_cons_ok hf] at h
      by_cases hm : t.hijri_month_number = 9
      · rw [if_pos hm] at h
        exact deliverAll_mem_subset _ _ _ _ kv (ih _ kv h)
      · rw [if_neg hm] at h
        exact ih st kv h

/-! ## Theorem for claim C10 -/

/-- C10: every mutation of the subscription store preserves validity of the
stored city keys: first-time subscription and legacy migration store only the
default key, the city callback stores a key only after checking the registry
(unknown keys are ignored), unsubscription and the firing removals only
remove entries. -/
theorem c10_store_invariant (us : Users) (chat_id : Nat) (city_key : String)
    (legacy : List Nat) (fetch : String → FetchRes) (sendOk : Nat → Bool)
    (disk : Users) (h : StoreValid us) :
    StoreValid (cmd_start us chat_id) ∧
    StoreValid (city_callback us chat_id city_key) ∧
    StoreValid (cmd_stop us chat_id) ∧
    StoreValid (send_morning fetch sendOk ⟨us, disk⟩).1.mem ∧
    StoreValid (send_evening fetch sendOk ⟨us, disk⟩).1.mem ∧
    StoreValid (migrate_legacy legacy) := by
  refine ⟨?_, ?_, ?_, ?_, ?_, ?_⟩
  · rw [cmd_start]
    by_cases h1 : lookupKey us chat_id = none
    · rw [if_pos h1]
      exact storeValid_insert h (by decide)
    · rw [if_neg h1]; exact h
  · rw [city_callback]
    by_cases h1 : is_city_key city_key
    · rw [if_pos h1]
      exact storeValid_insert h h1
    · rw [if_neg h1]; exact h
  · exact storeValid_erase h chat_id
  · rw [send_morning]
    by_cases h1 : us.isEmpty
    · simp only [h1, if_pos]; exact h
    · simp only [h1, Bool.false_eq_true, if_neg, not_false_iff]
      exact fun kv hkv => h kv (fireCities_mem_subset _ _ _ _ _ kv hkv)
  · rw [send_evening]
    by_cases h1 : us.isEmpty
    · simp only [h1, if_pos]; exact h
    · simp only [h1, Bool.false_eq_true, if_neg, not_false_iff]
      exact fun kv hkv => h kv (fireCities_mem_subset _ _ _ _ _ kv hkv)
  · intro kv hkv c hc
    rcases List.mem_map.mp hkv with ⟨cid, _, he⟩
    rw [← he] at hc
    cases hc
    decide

/-- Witness for C10 at a concrete store and inputs. -/
theorem c10_store_invariant_witness :
    StoreValid [(7, some "almaty")] ∧
    (StoreValid (cmd_start [(7, some "almaty")] 7) ∧
     StoreValid (city_callback [(7, some "almaty")] 7 "москва") ∧
     StoreValid (cmd_stop [(7, some "almaty")] 7) ∧
     StoreValid (send_morning (fun _ => .err) (fun _ => true) ⟨[(7, some "almaty")], []⟩).1.mem ∧
     StoreValid (send_evening (fun _ => .err) (fun _ => true) ⟨[(7, some "almaty")], []⟩).1.mem ∧
     StoreValid (migrate_legacy [1, 2, 3])) := by
  have hv : StoreValid [(7, some "almaty")] := by
    intro kv hkv c hc
    simp at hkv
    rw [hkv] at hc
    cases hc
    decide
  exact ⟨hv, c10_store_invariant [(7, some "almaty")] 7 "москва" [1, 2, 3]
    (fun _ => .err) (fun _ => true) [] hv⟩

/-! ## Theorems for claims C4 and C5 -/

/-- C4 counterexample: a well formed provider response whose time fields are
not monotonically increasing is returned by `fetch_today` as ordinary data,
not reported as a fetch failure. -/
theorem c4_counterexample_no_order_check :
    fetch_today bad_order_response "01.03.2026" "astana" = .ok bad_order_times ∧
    spec_times_monotone bad_order_times = false ∧
    decide (fetch_today bad_order_response "01.03.2026" "astana" = FetchRes.err) = false := by
  refine ⟨by decide, by decide, by decide⟩

/-- C4 amended: `fetch_today` performs no ordering validation at all — any
success-status response carrying all required fields is returned as a fully
populated times dict with the fields cleaned, regardless of how the seven
time values are ordered. -/
theorem c4_amended_no_order_validation (v1 v2 v3 v4 v5 v6 v7 hd hm : String)
    (hn : Int) (date_str city_key : String) :
    fetch_today
        ⟨200, some ⟨some ⟨some v1, some v2, some v3, some v4, some v5, some v6, some v7⟩,
          some ⟨some hd, some hm, some hn⟩⟩⟩ date_str city_key =
      .ok ⟨clean_time v1, clean_time v2, clean_time v3, clean_time v4, clean_time v5,
           clean_time v6, clean_time v7, hd, hm, hn, date_str, get_city_name city_key⟩ := by
  rfl

/-- C5 counterexample: a success-status response with a malformed body makes
`fetch_today` raise an unhandled exception rather than return the FetchError
value (`None`). -/
theorem c5_counterexample_malformed_raises :
    fetch_today ⟨200, some ⟨none, none⟩⟩ "01.03.2026" "astana" = .exn ∧
    decide (fetch_today ⟨200, some ⟨none, none⟩⟩ "01.03.2026" "astana" = FetchRes.err) =
      false :=
  ⟨rfl, by decide⟩

/-- C5 amended: `fetch_today` returns the FetchError value exactly on a
non-success status; on a success status with a malformed or incomplete body it
raises an unhandled exception (never partially populated data), and on a
success status with a complete body it returns a fully populated times dict. -/
theorem c5_amended_error_classification (r : HttpResponse)
    (date_str city_key : String) :
    (r.status ≠ 200 → fetch_today r date_str city_key = .err) ∧
    (r.status = 200 → body_complete r = false →
      fetch_today r date_str city_key = .exn) ∧
    (r.status = 200 → body_complete r = true →
      ∃ t : DayTimes, fetch_today r date_str city_key = .ok t) := by
  obtain ⟨st, body⟩ := r
  refine ⟨?_, ?_, ?_⟩
  · intro h
    rw [fetch_today, if_pos h]
  · intro h hc
    subst h
    rcases body with _ | ⟨tim, hij⟩
    · rfl
    · rcases tim with _ | ⟨i1, i2, i3, i4, i5, i6, i7⟩ <;>
        rcases hij with _ | ⟨d1, d2, d3⟩ <;>
        first
          | rfl
          | (rcases i1 with _ | v1 <;> rcases i2 with _ | v2 <;>
             rcases i3 with _ | v3 <;> rcases i4 with _ | v4 <;>
             rcases i5 with _ | v5 <;> rcases i6 with _ | v6 <;>
             rcases i7 with _ | v7 <;> rcases d1 with _ | w1 <;>
             rcases d2 with _ | w2 <;> rcases d3 with _ | w3 <;>
             first
               | rfl
               | simp [body_complete] at hc)
  · intro h hc
    subst h
    rcases body with _ | ⟨tim, hij⟩
    · simp [body_complete] at hc
    · rcases tim with _ | ⟨i1, i2, i3, i4, i5, i6, i7⟩ <;>
        rcases hij with _ | ⟨d1, d2, d3⟩ <;>
        first
          | (rcases i1 with _ | v1 <;> rcases i2 with _ | v2 <;>
             rcases i3 with _ | v3 <;> rcases i4 with _ | v4 <;>
             rcases i5 with _ | v5 <;> rcases i6 with _ | v6 <;>
             rcases i7 with _ | v7 <;> rcases d1 with _ | w1 <;>
             rcases d2 with _ | w2 <;> rcases d3 with _ | w3 <;>
             first
               | exact ⟨_, rfl⟩
               | simp [body_complete] at hc)
          | simp [body_complete] at hc

/-- Witness for the amended C5 statement at three concrete responses. -/
theorem c5_amended_error_classification_witness :
    ((500 : Nat) ≠ 200 ∧ fetch_today ⟨500, none⟩ "01.03.2026" "astana" = .err) ∧
    (body_complete ⟨200, some ⟨none, none⟩⟩ = false ∧
      fetch_today ⟨200, some ⟨none, none⟩⟩ "01.03.2026" "astana" = .exn) ∧
    (body_complete bad_order_response = true ∧
      ∃ t : DayTimes, fetch_today bad_order_response "01.03.2026" "astana" = .ok t) := by
  refine ⟨⟨by decide, (c5_amended_error_classification ⟨500, none⟩ "01.03.2026" "astana").1
      (by decide)⟩,
    ⟨by decide, (c5_amended_error_classification ⟨200, some ⟨none, none⟩⟩ "01.03.2026"
      "astana").2.1 rfl (by decide)⟩,
    ⟨by decide, (c5_amended_error_classification bad_order_response "01.03.2026"
      "astana").2.2 rfl (by decide)⟩⟩

/-! ## Theorems for claim C3 -/

theorem add_events_all_ok (insertOk : Nat → Bool) :
    ∀ (days : List SeedDay) (idx count : Nat),
      (∀ j, j < 2 * days.length → insertOk (idx + j) = true) →
      add_events_to_calendar insertOk days idx count =
        (2 * days.length, .ok (count + 2 * days.length)) := by
  intro days
  induction days with
  | nil =>
    intro idx count _
    simp [add_events_to_calendar]
  | cons d rest ih =>
    intro idx count h
    have hlen : (d :: rest).length = rest.length + 1 := rfl
    have h0 : insertOk idx = true := by
      have := h 0 (by rw [hlen]; omega)
      simpa using this
    have h1 : insertOk (idx + 1) = true := h 1 (by rw [hlen]; omega)
    have ih2 := ih (idx + 2) (count + 2) (fun j hj => by
      have hj2 := h (j + 2) (by rw [hlen]; omega)
      rw [show idx + 2 + j = idx + (j + 2) by omega]
      exact hj2)
    rw [add_events_to_calendar]
    simp only [h0, h1, if_true, ih2, hlen]
    rw [Prod.ext_iff]
    constructor
    · simp; omega
    · simp only []
      congr 1
      omega

theorem add_events_first_fail (insertOk : Nat → Bool) :
    ∀ (days : List SeedDay) (idx count k : Nat),
      k < 2 * days.length → insertOk (idx + k) = false →
      (∀ j, j < k → insertOk (idx + j) = true) →
      add_events_to_calendar insertOk days idx count = (k + 1, .error ()) := by
  intro days
  induction days with
  | nil =>
    intro idx count k hk _ _
    simp at hk
  | cons d rest ih =>
    intro idx count k hk hfail hbefore
    have hlen : (d :: rest).length = rest.length + 1 := rfl
    cases k with
    | zero =>
      have h0 : insertOk idx = false := by simpa using hfail
      rw [add_events_to_calendar]
      simp [h0]
    | succ k1 =>
      cases k1 with
      | zero =>
        have h0 : insertOk idx = true := by simpa using hbefore 0 (by omega)
        have h1 : insertOk (idx + 1) = false := hfail
        rw [add_events_to_calendar]
        simp [h0, h1]
      | succ k2 =>
        have h0 : insertOk idx = true := by simpa using hbefore 0 (by omega)
        have h1 : insertOk (idx + 1) = true := hbefore 1 (by omega)
        have hk2 : k2 < 2 * rest.length := by rw [hlen] at hk; omega
        have hfail2 : insertOk (idx + 2 + k2) = false := by
          rw [show idx + 2 + k2 = idx + (k2 + 1 + 1) by omega]
          exact hfail
        have hbefore2 : ∀ j, j < k2 → insertOk (idx + 2 + j) = true := fun j hj => by
          rw [show idx + 2 + j = idx + (j + 2) by omega]
          exact hbefore (j + 2) (by omega)
        have ihr := ih (idx + 2) (count + 2) k2 hk2 hfail2 hbefore2
        rw [add_events_to_calendar]
        simp only [h0, h1, if_true, ihr]

/-- C3 counterexample: in a two-day seeding where the very first insert fails,
only that one insert is ever attempted — the remaining three inserts are not
attempted and no success count is returned (the exception propagates). -/
theorem c3_counterexample_abort_on_failure :
    add_events_to_calendar first_insert_fails two_sample_days 0 0 = (1, .error ()) ∧
    decide ((add_events_to_calendar first_insert_fails two_sample_days 0 0).1 =
      2 * two_sample_days.length) = false := by
  exact ⟨rfl, by decide⟩

/-- C3 amended: the inserts are attempted strictly in sequence and the first
failing insert aborts the batch — inserts after it are never attempted and the
function raises instead of returning a count; only when every insert succeeds
does it return the count, which then equals two per day entry. -/
theorem c3_amended_sequential_abort (insertOk : Nat → Bool) (days : List SeedDay) :
    ((∀ j, j < 2 * days.length → insertOk j = true) →
      add_events_to_calendar insertOk days 0 0 =
        (2 * days.length, .ok (2 * days.length))) ∧
    (∀ k, k < 2 * days.length → insertOk k = false →
      (∀ j, j < k → insertOk j = true) →
      add_events_to_calendar insertOk days 0 0 = (k + 1, .error ())) := by
  constructor
  · intro h
    have hr := add_events_all_ok insertOk days 0 0 (fun j hj => by simpa using h j hj)
    simpa using hr
  · intro k hk hf hb
    exact add_events_first_fail insertOk days 0 0 k hk (by simpa using hf)
      (fun j hj => by simpa using hb j hj)

/-- Witness for the amended C3 statement: an all-success seeding returns the
full count, and a first-insert failure aborts with one attempt. -/
theorem c3_amended_sequential_abort_witness :
    ((∀ j, j < 2 * ([sample_day1] : List SeedDay).length → (fun _ => true : Nat → Bool) j = true) ∧
      add_events_to_calendar (fun _ => true) [sample_day1] 0 0 =
        (2 * ([sample_day1] : List SeedDay).length, .ok (2 * ([sample_day1] : List SeedDay).length))) ∧
    (0 < 2 * two_sample_days.length ∧ first_insert_fails 0 = false ∧
      add_events_to_calendar first_insert_fails two_sample_days 0 0 = (0 + 1, .error ())) := by
  refine ⟨⟨fun j _ => rfl, ?_⟩, ⟨by decide, by decide, ?_⟩⟩
  · exact (c3_amended_sequential_abort (fun _ => true) [sample_day1]).1 (fun j _ => rfl)
  · exact (c3_amended_sequential_abort first_insert_fails two_sample_days).2 0 (by decide)
      (by decide) (fun j hj => absurd hj (by omega))

/-! ## String lemmas and chunking lemmas (claim C7) -/

theorem str_length_append (s t : String) : (s ++ t).length = s.length + t.length := by
  cases s; cases t; simp [String.length, String.append]

theorem str_append_assoc (s t u : String) : s ++ t ++ u = s ++ (t ++ u) := by
  simp [String.ext_iff]

theorem str_append_empty (s : String) : s ++ "" = s := by
  simp [String.ext_iff]

theorem str_empty_append (s : String) : "" ++ s = s := by
  simp [String.ext_iff]

theorem str_eq_empty_of_length_eq_zero {s : String} (h : s.length = 0) : s = "" := by
  cases s with
  | mk data =>
    cases data with
    | nil => rfl
    | cons c cs => simp [String.length] at h

theorem str_ne_empty_of_length_pos {s : String} (h : 0 < s.length) : s ≠ "" := by
  intro he
  rw [he] at h
  simp [String.length] at h

theorem joinAll_append (a b : List String) : joinAll (a ++ b) = joinAll a ++ joinAll b := by
  induction a with
  | nil => simp [joinAll, str_empty_append]
  | cons s rest ih => simp [joinAll, ih, str_append_assoc]

theorem joinAll_map_join (parts : List (List String)) :
    joinAll (parts.map joinAll) = joinAll parts.flatten := by
  induction parts with
  | nil => rfl
  | cons p tl ih => simp [joinAll, List.flatten_cons, ih, joinAll_append]

theorem get_city_name_cases (k : String) :
    get_city_name k = "Астана" ∨ get_city_name k ∈ CITIES.map (fun c => c.2.1) := by
  rw [get_city_name]
  rcases h : city_entry k with _ | e
  · left; rfl
  · right
    have hm : e ∈ CITIES := List.mem_of_find?_eq_some h
    simpa using List.mem_map_of_mem (fun c => c.2.1) hm

theorem get_city_name_length_le (k : String) : (get_city_name k).length ≤ 16 := by
  rcases get_city_name_cases k with h | h
  · rw [h]; decide
  · have hall : ∀ n ∈ CITIES.map (fun c => c.2.1), n.length ≤ 16 := by decide
    exact hall _ h

theorem schedule_header_length_le (k : String) : (schedule_header k).length ≤ 4000 := by
  rw [schedule_header, str_length_append, str_length_append]
  have h0 := get_city_name_length_le k
  have h1 : ("РАСПИСАНИЕ РАМАДАНА 2026\nг. " : String).length = 28 := by decide
  have h2 : ("\n" : String).length = 1 := by decide
  omega

theorem schedule_header_ne_empty (k : String) : schedule_header k ≠ "" := by
  apply str_ne_empty_of_length_pos
  rw [schedule_header, str_length_append, str_length_append]
  have h1 : ("РАСПИСАНИЕ РАМАДАНА 2026\nг. " : String).length = 28 := by decide
  omega

theorem render_day_line_ne_empty (today : GDate) (day : SeedDay) :
    render_day_line today day ≠ "" := by
  apply str_ne_empty_of_length_pos
  rw [render_day_line]
  simp only [str_length_append]
  have h1 : ("\nДень " : String).length = 6 := by decide
  omega

theorem chunk_loop_bound :
    ∀ (lines : List String) (cur : String),
      (∀ l ∈ lines, l.length ≤ 4000) → cur.length ≤ 4000 →
      ∀ ch ∈ chunk_loop lines cur, ch.length ≤ 4000 := by
  intro lines
  induction lines with
  | nil =>
    intro cur _ hc ch hch
    rw [chunk_loop] at hch
    by_cases he : cur = ""
    · rw [if_pos he] at hch
      simp at hch
    · rw [if_neg he] at hch
      simp at hch
      rw [hch]
      exact hc
  | cons line rest ih =>
    intro cur hl hc ch hch
    have hline : line.length ≤ 4000 := hl line (List.mem_cons_self _ _)
    have hrest : ∀ l ∈ rest, l.length ≤ 4000 := fun l hm => hl l (List.mem_cons_of_mem _ hm)
    rw [chunk_loop] at hch
    by_cases hb : 4000 < cur.length + line.length
    · rw [if_pos hb] at hch
      rcases List.mem_cons.mp hch with he | hm
      · rw [he]; exact hc
      · exact ih line hrest hline ch hm
    · rw [if_neg hb] at hch
      refine ih (cur ++ line) hrest ?_ ch hch
      rw [str_length_append]
      omega

theorem chunk_loop_partition :
    ∀ (lines : List String) (cur : String), (∀ l ∈ lines, l ≠ "") → cur ≠ "" →
      ∃ parts : List (List String), parts ≠ [] ∧ parts.flatten = lines ∧
        chunk_loop lines cur = (parts.map joinAll).modifyHead (fun s => cur ++ s) := by
  intro lines
  induction lines with
  | nil =>
    intro cur _ hc
    refine ⟨[[]], by simp, by simp, ?_⟩
    rw [chunk_loop, if_neg hc]
    simp [joinAll, str_append_empty]
  | cons line rest ih =>
    intro cur hl hc
    have hline : line ≠ "" := hl line (List.mem_cons_self _ _)
    have hrest : ∀ l ∈ rest, l ≠ "" := fun l hm => hl l (List.mem_cons_of_mem _ hm)
    by_cases hb : 4000 < cur.length + line.length
    · obtain ⟨parts, hne, hjoin, heq⟩ := ih line hrest hline
      obtain ⟨p0, tl, rfl⟩ := List.exists_cons_of_ne_nil hne
      refine ⟨[] :: (line :: p0) :: tl, by simp, ?_, ?_⟩
      · simp only [List.flatten_cons, List.flatten_nil, List.nil_append,
          List.cons_append] at hjoin ⊢
        rw [hjoin]
      · rw [chunk_loop, if_pos hb, heq]
        simp [joinAll, str_append_empty, List.modifyHead]
    · have hcl : cur ++ line ≠ "" := by
        apply str_ne_empty_of_length_pos
        rw [str_length_append]
        have : cur.length ≠ 0 := fun h0 => hc (str_eq_empty_of_length_eq_zero h0)
        omega
      obtain ⟨parts, hne, hjoin, heq⟩ := ih (cur ++ line) hrest hcl
      obtain ⟨p0, tl, rfl⟩ := List.exists_cons_of_ne_nil hne
      refine ⟨(line :: p0) :: tl, by simp, ?_, ?_⟩
      · simp only [List.flatten_cons, List.cons_append] at hjoin ⊢
        rw [hjoin]
      · rw [chunk_loop, if_neg hb, heq]
        simp [joinAll, List.modifyHead, str_append_assoc]

/-! ## Theorem for claim C7 -/

/-- C7: for a fetched month schedule whose rendered day entries each fit the
4000-character budget, the chunking of the full-schedule text produces only
chunks of at most 4000 characters, splits only at day-entry boundaries (each
chunk is the concatenation of consecutive whole entries, the first prefixed by
the header), and the concatenation of all chunks is the header followed by
every day entry exactly once in order. -/
theorem c7_schedule_chunking (city_key : String) (today : GDate) (days : List SeedDay)
    (hbound : ∀ d ∈ days, (render_day_line today d).length ≤ 4000) :
    (∀ ch ∈ schedule_chunks city_key today days, ch.length ≤ 4000) ∧
    (∃ parts : List (List String), parts ≠ [] ∧
      parts.flatten = days.map (render_day_line today) ∧
      schedule_chunks city_key today days =
        (parts.map joinAll).modifyHead (fun s => schedule_header city_key ++ s)) ∧
    joinAll (schedule_chunks city_key today days) =
      schedule_header city_key ++ joinAll (days.map (render_day_line today)) := by
  have hlines : ∀ l ∈ days.map (render_day_line today), l.length ≤ 4000 := by
    intro l hm
    rcases List.mem_map.mp hm with ⟨d, hd, rfl⟩
    exact hbound d hd
  have hne : ∀ l ∈ days.map (render_day_line today), l ≠ "" := by
    intro l hm
    rcases List.mem_map.mp hm with ⟨d, hd, rfl⟩
    exact render_day_line_ne_empty today d
  refine ⟨?_, ?_, ?_⟩
  · exact chunk_loop_bound _ _ hlines (schedule_header_length_le city_key)
  · exact chunk_loop_partition _ _ hne (schedule_header_ne_empty city_key)
  · obtain ⟨parts, hpne, hjoin, heq⟩ := chunk_loop_partition
      (days.map (render_day_line today)) (schedule_header city_key) hne
      (schedule_header_ne_empty city_key)
    obtain ⟨p0, tl, rfl⟩ := List.exists_cons_of_ne_nil hpne
    rw [schedule_chunks, heq]
    simp only [List.map_cons, List.modifyHead, joinAll]
    rw [str_append_assoc]
    have := joinAll_map_join (p0 :: tl)
    simp only [List.map_cons, joinAll] at this
    rw [this, hjoin]

/-- Witness for C7 at a concrete one-day schedule. -/
theorem c7_schedule_chunking_witness :
    (∀ d ∈ ([sample_day1] : List SeedDay),
      (render_day_line ⟨1, 1, 3, 0⟩ d).length ≤ 4000) ∧
    ((∀ ch ∈ schedule_chunks "almaty" ⟨1, 1, 3, 0⟩ [sample_day1], ch.length ≤ 4000) ∧
     (∃ parts : List (List String), parts ≠ [] ∧
       parts.flatten = [sample_day1].map (render_day_line ⟨1, 1, 3, 0⟩) ∧
       schedule_chunks "almaty" ⟨1, 1, 3, 0⟩ [sample_day1] =
         (parts.map joinAll).modifyHead (fun s => schedule_header "almaty" ++ s)) ∧
     joinAll (schedule_chunks "almaty" ⟨1, 1, 3, 0⟩ [sample_day1]) =
       schedule_header "almaty" ++ joinAll ([sample_day1].map (render_day_line ⟨1, 1, 3, 0⟩))) :=
  ⟨by decide, c7_schedule_chunking "almaty" ⟨1, 1, 3, 0⟩ [sample_day1] (by decide)⟩

/-! ## Grouping lemmas (claims C1 and C2) -/

theorem groupFind_addToGroup_self (acc : List (String × List Nat)) (c : String) (k : Nat) :
    groupFind (addToGroup acc c k) c = groupFind acc c ++ [k] := by
  induction acc with
  | nil => simp [addToGroup, groupFind]
  | cons g rest ih =>
    obtain ⟨c0, ids⟩ := g
    by_cases h : c0 = c
    · subst h
      simp [addToGroup, groupFind]
    · simp [addToGroup, groupFind, h, ih]

theorem groupFind_addToGroup_ne (acc : List (String × List Nat)) (c c' : String) (k : Nat)
    (h : c' ≠ c) : groupFind (addToGroup acc c k) c' = groupFind acc c' := by
  induction acc with
  | nil => simp [addToGroup, groupFind, Ne.symm h]
  | cons g rest ih =>
    obtain ⟨c0, ids⟩ := g
    by_cases h0 : c0 = c
    · subst h0
      simp [addToGroup, groupFind, Ne.symm h]
    · by_cases h1 : c0 = c'
      · simp [addToGroup, groupFind, h0, h1, h]
      · simp [addToGroup, groupFind, h0, h1, ih]

theorem groupFind_groupAux (us : Users) :
    ∀ (acc : List (String × List Nat)) (c : String),
      groupFind (groupAux us acc) c =
        groupFind acc c ++ (us.filter (fun kv => cityOf kv.2 = c)).map Prod.fst := by
  induction us with
  | nil => intro acc c; simp [groupAux]
  | cons kv rest ih =>
    intro acc c
    obtain ⟨k, rec⟩ := kv
    by_cases h : cityOf rec = c
    · rw [groupAux, ih]
      simp [h, groupFind_addToGroup_self]
    · rw [groupAux, ih]
      simp [h, groupFind_addToGroup_ne acc (cityOf rec) c k (Ne.symm h)]

theorem groupFind_group_by_city (us : Users) (c : String) :
    groupFind (group_by_city us) c =
      (us.filter (fun kv => cityOf kv.2 = c)).map Prod.fst := by
  rw [group_by_city, groupFind_groupAux]
  simp [groupFind]

theorem addToGroup_mem_src {acc : List (String × List Nat)} {c : String} {k : Nat}
    {c' : String} {ids : List Nat} {u : Nat} :
    (c', ids) ∈ addToGroup acc c k → u ∈ ids →
    (c' = c ∧ u = k) ∨ ∃ ids0, (c', ids0) ∈ acc ∧ u ∈ ids0 := by
  induction acc with
  | nil =>
    intro h hu
    simp [addToGroup] at h
    left
    obtain ⟨h1, h2⟩ := h
    subst h1; subst h2
    simpa using hu
  | cons g rest ih =>
    intro h hu
    obtain ⟨c0, ids0⟩ := g
    by_cases h0 : c0 = c
    · subst h0
      rw [addToGroup, if_pos rfl] at h
      rcases List.mem_cons.mp h with he | hm
      · rw [Prod.mk.injEq] at he
        obtain ⟨h1, h2⟩ := he
        subst h1
        rw [h2] at hu
        rcases List.mem_append.mp hu with hm0 | hk
        · exact Or.inr ⟨ids0, List.mem_cons_self _ _, hm0⟩
        · exact Or.inl ⟨rfl, by simpa using hk⟩
      · exact Or.inr ⟨ids, List.mem_cons_of_mem _ hm, hu⟩
    · rw [addToGroup, if_neg h0] at h
      rcases List.mem_cons.mp h with he | hm
      · exact Or.inr ⟨ids, he ▸ List.mem_cons_self _ _, hu⟩
      · rcases ih hm hu with hl | ⟨ids1, hm1, hu1⟩
        · exact Or.inl hl
        · exact Or.inr ⟨ids1, List.mem_cons_of_mem _ hm1, hu1⟩

theorem groupAux_mem_src (us : Users) :
    ∀ (acc : List (String × List Nat)) {c' : String} {ids : List Nat} {u : Nat},
      (c', ids) ∈ groupAux us acc → u ∈ ids →
      (∃ rec, (u, rec) ∈ us ∧ cityOf rec = c') ∨
        ∃ ids0, (c', ids0) ∈ acc ∧ u ∈ ids0 := by
  induction us with
  | nil =>
    intro acc c' ids u h hu
    exact Or.inr ⟨ids, h, hu⟩
  | cons kv rest ih =>
    intro acc c' ids u h hu
    obtain ⟨k, rec⟩ := kv
    rw [groupAux] at h
    rcases ih _ h hu with ⟨rec1, hm1, hc1⟩ | ⟨ids0, hm0, hu0⟩
    · exact Or.inl ⟨rec1, List.mem_cons_of_mem _ hm1, hc1⟩
    · rcases addToGroup_mem_src hm0 hu0 with ⟨hc, hk⟩ | ⟨ids1, hm1, hu1⟩
      · subst hk
        exact Or.inl ⟨rec, List.mem_cons_self _ _, hc.symm⟩
      · exact Or.inr ⟨ids1, hm1, hu1⟩

theorem group_by_city_mem_src {us : Users} {c' : String} {ids : List Nat} {u : Nat}
    (h : (c', ids) ∈ group_by_city us) (hu : u ∈ ids) :
    ∃ rec, (u, rec) ∈ us ∧ cityOf rec = c' := by
  rcases groupAux_mem_src us [] h hu with hl | ⟨ids0, hm0, _⟩
  · exact hl
  · simp at hm0

theorem lookup_eq_of_mem_nodup {us : Users} {u : Nat} {rec : UserRec}
    (hnd : (us.map Prod.fst).Nodup) (hm : (u, rec) ∈ us) :
    lookupKey us u = some rec := by
  induction us with
  | nil => simp at hm
  | cons kv rest ih =>
    rcases List.mem_cons.mp hm with he | hmr
    · rw [← he, lookupKey, if_pos rfl]
    · have hnd1 : (rest.map Prod.fst).Nodup := (List.nodup_cons.mp hnd).2
      have hne : kv.1 ≠ u := by
        intro he1
        have : u ∈ rest.map Prod.fst := List.mem_map_of_mem Prod.fst hmr
        exact (List.nodup_cons.mp hnd).1 (he1 ▸ this)
      rw [lookupKey, if_neg hne]
      exact ih hnd1 hmr

theorem not_in_groups_of_lookup_none {us : Users} {u : Nat}
    (h : lookupKey us u = none) (c : String) :
    u ∉ groupFind (group_by_city us) c := by
  rw [groupFind_group_by_city]
  intro hu
  rcases List.mem_map.mp hu with ⟨kv, hkv, hfst⟩
  have hkm : kv ∈ us := List.mem_of_mem_filter hkv
  have : (u, kv.2) ∈ us := by
    have : kv = (u, kv.2) := by
      rw [← hfst]
    rw [← this]
    exact hkm
  exact not_mem_of_lookupKey_eq_none h kv.2 this

/-! ## Delivery-loop lemmas (claims C1 and C2) -/

theorem lookup_erase_none {us : Users} {u : Nat} (h : lookupKey us u = none) (k : Nat) :
    lookupKey (eraseKey us k) u = none := by
  by_cases he : u = k
  · subst he
    exact lookupKey_erase_self us u
  · rw [lookupKey_erase_ne us k u he]
    exact h

theorem deliverAll_atts (sendOk : Nat → Bool) (text : String) :
    ∀ (ids : List Nat) (st : FireState) (a : Attempt),
      a ∈ (deliverAll sendOk text ids st).2 →
      a.1 ∈ ids ∧ a.2.1 = sendOk a.1 ∧ a.2.2 = text := by
  intro ids
  induction ids with
  | nil =>
    intro st a h
    simp [deliverAll] at h
  | cons id rest ih =>
    intro st a h
    by_cases hs : sendOk id
    · rw [deliverAll_cons_ok hs] at h
      rcases List.mem_cons.mp h with he | hm
      · subst he
        exact ⟨List.mem_cons_self _ _, hs.symm, rfl⟩
      · obtain ⟨h1, h2, h3⟩ := ih _ a hm
        exact ⟨List.mem_cons_of_mem _ h1, h2, h3⟩
    · have hs0 : sendOk id = false := by simpa using hs
      rw [deliverAll_cons_fail hs0] at h
      rcases List.mem_cons.mp h with he | hm
      · subst he
        exact ⟨List.mem_cons_self _ _, hs0.symm, rfl⟩
      · obtain ⟨h1, h2, h3⟩ := ih _ a hm
        exact ⟨List.mem_cons_of_mem _ h1, h2, h3⟩

theorem deliverAll_none_pres (sendOk : Nat → Bool) (text : String) :
    ∀ (ids : List Nat) (st : FireState) (u : Nat),
      lookupKey st.mem u = none → lookupKey st.disk u = none →
      lookupKey (deliverAll sendOk text ids st).1.mem u = none ∧
      lookupKey (deliverAll sendOk text ids st).1.disk u = none := by
  intro ids
  induction ids with
  | nil =>
    intro st u h1 h2
    exact ⟨h1, h2⟩
  | cons id rest ih =>
    intro st u h1 h2
    by_cases hs : sendOk id
    · rw [deliverAll_cons_ok hs]
      exact ih st u h1 h2
    · rw [deliverAll_cons_fail (by simpa using hs)]
      exact ih _ u (lookup_erase_none h1 id) (lookup_erase_none h1 id)

theorem deliverAll_erased (sendOk : Nat → Bool) (text : String) :
    ∀ (ids : List Nat) (st : FireState) (u : Nat), u ∈ ids → sendOk u = false →
      lookupKey (deliverAll sendOk text ids st).1.mem u = none ∧
      lookupKey (deliverAll sendOk text ids st).1.disk u = none := by
  intro ids
  induction ids with
  | nil =>
    intro st u h
    simp at h
  | cons id rest ih =>
    intro st u hm hf
    by_cases hs : sendOk id
    · rw [deliverAll_cons_ok hs]
      rcases List.mem_cons.mp hm with he | hmr
      · exfalso
        rw [← he, hf] at hs
        exact Bool.noConfusion hs
      · exact ih st u hmr hf
    · rw [deliverAll_cons_fail (by simpa using hs)]
      rcases List.mem_cons.mp hm with he | hmr
      · subst he
        exact deliverAll_none_pres sendOk text rest _ u
          (lookupKey_erase_self st.mem u) (lookupKey_erase_self st.mem u)
      · exact ih _ u hmr hf

theorem deliverAll_lookup_pres (sendOk : Nat → Bool) (text : String) :
    ∀ (ids : List Nat) (st : FireState) (u : Nat), u ∉ ids →
      lookupKey (deliverAll sendOk text ids st).1.mem u = lookupKey st.mem u := by
  intro ids
  induction ids with
  | nil =>
    intro st u _
    rfl
  | cons id rest ih =>
    intro st u hn
    have hne : u ≠ id := fun he => hn (he ▸ List.mem_cons_self _ _)
    have hnr : u ∉ rest := fun hm => hn (List.mem_cons_of_mem _ hm)
    by_cases hs : sendOk id
    · rw [deliverAll_cons_ok hs]
      exact ih st u hnr
    · rw [deliverAll_cons_fail (by simpa using hs)]
      rw [ih _ u hnr]
      exact lookupKey_erase_ne st.mem id u hne

/-! ## Firing lemmas (claims C1 and C2) -/

theorem fireCities_none_pres (render : String → DayTimes → String)
    (fetch : String → FetchRes) (sendOk : Nat → Bool) :
    ∀ (groups : List (String × List Nat)) (st : FireState) (u : Nat),
      lookupKey st.mem u = none → lookupKey st.disk u = none →
      lookupKey (fireCities render fetch sendOk groups st).1.mem u = none ∧
      lookupKey (fireCities render fetch sendOk groups st).1.disk u = none := by
  intro groups
  induction groups with
  | nil =>
    intro st u h1 h2
    exact ⟨h1, h2⟩
  | cons g rest ih =>
    intro st u h1 h2
    obtain ⟨c, ids⟩ := g
    rcases hf : fetch c with _ | _ | t
    · rw [fireCities_cons_err hf]
      exact ih st u h1 h2
    · rw [fireCities_cons_exn hf]
      exact ⟨h1, h2⟩
    · rw [fireCities_cons_ok hf]
      by_cases hm9 : t.hijri_month_number = 9
      · rw [if_pos hm9]
        have hd := deliverAll_none_pres sendOk (render c t) ids st u h1 h2
        exact ih _ u hd.1 hd.2
      · rw [if_neg hm9]
        exact ih st u h1 h2

theorem fireCities_failed_purged (render : String → DayTimes → String)
    (fetch : String → FetchRes) (sendOk : Nat → Bool) :
    ∀ (groups : List (String × List Nat)) (st : FireState) (a : Attempt),
      a ∈ (fireCities render fetch sendOk groups st).2 → a.2.1 = false →
      lookupKey (fireCities render fetch sendOk groups st).1.mem a.1 = none ∧
      lookupKey (fireCities render fetch sendOk groups st).1.disk a.1 = none := by
  intro groups
  induction groups with
  | nil =>
    intro st a h
    simp [fireCities] at h
  | cons g rest ih =>
    intro st a h hfalse
    obtain ⟨c, ids⟩ := g
    rcases hf : fetch c with _ | _ | t
    · rw [fireCities_cons_err hf] at h ⊢
      exact ih st a h hfalse
    · rw [fireCities_cons_exn hf] at h
      simp at h
    · rw [fireCities_cons_ok hf] at h ⊢
      by_cases hm9 : t.hijri_month_number = 9
      · rw [if_pos hm9] at h ⊢
        dsimp only at h ⊢
        rcases List.mem_append.mp h with hA | hB
        · obtain ⟨hid, hok, _⟩ := deliverAll_atts sendOk (render c t) ids st a hA
          have hsf : sendOk a.1 = false := by
            rw [hok] at hfalse
            exact hfalse
          have herased := deliverAll_erased sendOk (render c t) ids st a.1 hid hsf
          exact fireCities_none_pres render fetch sendOk rest _ a.1 herased.1 herased.2
        · exact ih _ a hB hfalse
      · rw [if_neg hm9] at h ⊢
        exact ih st a h hfalse

theorem fireCities_skip_pres (render : String → DayTimes → String)
    (fetch : String → FetchRes) (sendOk : Nat → Bool) :
    ∀ (groups : List (String × List Nat)) (st : FireState) (u : Nat),
      (∀ c' ids, (c', ids) ∈ groups → u ∈ ids →
        fetch c' = .err ∨ ∃ t, fetch c' = .ok t ∧ t.hijri_month_number ≠ 9) →
      lookupKey (fireCities render fetch sendOk groups st).1.mem u = lookupKey st.mem u ∧
      ∀ a ∈ (fireCities render fetch sendOk groups st).2, a.1 ≠ u := by
  intro groups
  induction groups with
  | nil =>
    intro st u _
    refine ⟨rfl, ?_⟩
    intro a ha
    simp [fireCities] at ha
  | cons g rest ih =>
    intro st u hH
    obtain ⟨c, ids⟩ := g
    have hHr : ∀ c' ids', (c', ids') ∈ rest → u ∈ ids' →
        fetch c' = .err ∨ ∃ t, fetch c' = .ok t ∧ t.hijri_month_number ≠ 9 :=
      fun c' ids' hm hu => hH c' ids' (List.mem_cons_of_mem _ hm) hu
    rcases hf : fetch c with _ | _ | t
    · rw [fireCities_cons_err hf]
      exact ih st u hHr
    · rw [fireCities_cons_exn hf]
      refine ⟨rfl, ?_⟩
      intro a ha
      simp at ha
    · by_cases hm9 : t.hijri_month_number = 9
      · have hnu : u ∉ ids := by
          intro hu
          rcases hH c ids (List.mem_cons_self _ _) hu with he | ⟨t2, ht2, hne9⟩
          · rw [hf] at he
            exact FetchRes.noConfusion he
          · rw [hf] at ht2
            injection ht2 with ht2e
            exact hne9 (ht2e ▸ hm9)
        rw [fireCities_cons_ok hf, if_pos hm9]
        dsimp only
        constructor
        · rw [(ih _ u hHr).1]
          exact deliverAll_lookup_pres sendOk (render c t) ids st u hnu
        · intro a ha
          rcases List.mem_append.mp ha with hA | hB
          · obtain ⟨hid, _, _⟩ := deliverAll_atts sendOk (render c t) ids st a hA
            intro he
            rw [he] at hid
            exact hnu hid
          · exact (ih _ u hHr).2 a hB
      · rw [fireCities_cons_ok hf, if_neg hm9]
        exact ih st u hHr

/-! ## Theorems for claims C1 and C2 -/

/-- C1: in either firing, a delivery failure for user `u` (a failed attempt
recorded for `u`) results in `u` removed from the in-memory store, removed
from the persisted store, and absent from every subsequent grouping by city. -/
theorem c1_failed_delivery_purges (fetch : String → FetchRes) (sendOk : Nat → Bool)
    (st : FireState) (u : Nat) :
    ((∃ a ∈ (send_morning fetch sendOk st).2, a.1 = u ∧ a.2.1 = false) →
      lookupKey (send_morning fetch sendOk st).1.mem u = none ∧
      lookupKey (send_morning fetch sendOk st).1.disk u = none ∧
      ∀ c, u ∉ groupFind (group_by_city (send_morning fetch sendOk st).1.mem) c) ∧
    ((∃ a ∈ (send_evening fetch sendOk st).2, a.1 = u ∧ a.2.1 = false) →
      lookupKey (send_evening fetch sendOk st).1.mem u = none ∧
      lookupKey (send_evening fetch sendOk st).1.disk u = none ∧
      ∀ c, u ∉ groupFind (group_by_city (send_evening fetch sendOk st).1.mem) c) := by
  constructor
  · rintro ⟨a, ha, hau, haf⟩
    rw [send_morning] at ha ⊢
    by_cases he : st.mem.isEmpty
    · rw [if_pos he] at ha
      simp at ha
    · rw [if_neg he] at ha ⊢
      subst hau
      have h2 := fireCities_failed_purged morning_text fetch sendOk
        (group_by_city st.mem) st a ha haf
      exact ⟨h2.1, h2.2, fun c => not_in_groups_of_lookup_none h2.1 c⟩
  · rintro ⟨a, ha, hau, haf⟩
    rw [send_evening] at ha ⊢
    by_cases he : st.mem.isEmpty
    · rw [if_pos he] at ha
      simp at ha
    · rw [if_neg he] at ha ⊢
      subst hau
      have h2 := fireCities_failed_purged evening_text fetch sendOk
        (group_by_city st.mem) st a ha haf
      exact ⟨h2.1, h2.2, fun c => not_in_groups_of_lookup_none h2.1 c⟩

/-- Witness for C1: one subscriber whose delivery fails during the firing. -/
theorem c1_failed_delivery_purges_witness :
    (∃ a ∈ (send_morning (fun _ => .ok sample_times) (fun _ => false) one_user_state).2,
      a.1 = 5 ∧ a.2.1 = false) ∧
    (lookupKey (send_morning (fun _ => .ok sample_times) (fun _ => false)
        one_user_state).1.mem 5 = none ∧
      lookupKey (send_morning (fun _ => .ok sample_times) (fun _ => false)
        one_user_state).1.disk 5 = none ∧
      ∀ c, 5 ∉ groupFind (group_by_city (send_morning (fun _ => .ok sample_times)
        (fun _ => false) one_user_state).1.mem) c) ∧
    (∃ a ∈ (send_evening (fun _ => .ok sample_times) (fun _ => false) one_user_state).2,
      a.1 = 5 ∧ a.2.1 = false) ∧
    (lookupKey (send_evening (fun _ => .ok sample_times) (fun _ => false)
        one_user_state).1.mem 5 = none ∧
      lookupKey (send_evening (fun _ => .ok sample_times) (fun _ => false)
        one_user_state).1.disk 5 = none ∧
      ∀ c, 5 ∉ groupFind (group_by_city (send_evening (fun _ => .ok sample_times)
        (fun _ => false) one_user_state).1.mem) c) := by
  refine ⟨by decide, ?_, by decide, ?_⟩
  · exact (c1_failed_delivery_purges (fun _ => .ok sample_times) (fun _ => false)
      one_user_state 5).1 (by decide)
  · exact (c1_failed_delivery_purges (fun _ => .ok sample_times) (fun _ => false)
      one_user_state 5).2 (by decide)

/-- C2: in either firing, a subscriber of a city whose fetch returned the
FetchError value, or returned data for a lunar month other than 9, receives no
delivery attempt and keeps an unchanged store entry. -/
theorem c2_skipped_city_untouched (fetch : String → FetchRes) (sendOk : Nat → Bool)
    (st : FireState) (u : Nat) (rec : UserRec)
    (hnd : (st.mem.map Prod.fst).Nodup)
    (hm : lookupKey st.mem u = some rec)
    (hskip : fetch (cityOf rec) = .err ∨
      ∃ t, fetch (cityOf rec) = .ok t ∧ t.hijri_month_number ≠ 9) :
    (lookupKey (send_morning fetch sendOk st).1.mem u = lookupKey st.mem u ∧
      ∀ a ∈ (send_morning fetch sendOk st).2, a.1 ≠ u) ∧
    (lookupKey (send_evening fetch sendOk st).1.mem u = lookupKey st.mem u ∧
      ∀ a ∈ (send_evening fetch sendOk st).2, a.1 ≠ u) := by
  have hH : ∀ c' ids, (c', ids) ∈ group_by_city st.mem → u ∈ ids →
      fetch c' = .err ∨ ∃ t, fetch c' = .ok t ∧ t.hijri_month_number ≠ 9 := by
    intro c' ids hg hu
    obtain ⟨rec1, hmem, hcity⟩ := group_by_city_mem_src hg hu
    have hl : lookupKey st.mem u = some rec1 := lookup_eq_of_mem_nodup hnd hmem
    rw [hm] at hl
    injection hl with hre
    rw [← hcity, ← hre]
    exact hskip
  constructor
  · rw [send_morning]
    by_cases he : st.mem.isEmpty
    · rw [if_pos he]
      refine ⟨rfl, ?_⟩
      intro a ha
      simp at ha
    · rw [if_neg he]
      exact fireCities_skip_pres morning_text fetch sendOk (group_by_city st.mem) st u hH
  · rw [send_evening]
    by_cases he : st.mem.isEmpty
    · rw [if_pos he]
      refine ⟨rfl, ?_⟩
      intro a ha
      simp at ha
    · rw [if_neg he]
      exact fireCities_skip_pres evening_text fetch sendOk (group_by_city st.mem) st u hH

/-- Witness for C2: a single subscriber whose city fetch fails. -/
theorem c2_skipped_city_untouched_witness :
    ((one_user_state.mem.map Prod.fst).Nodup ∧
     lookupKey one_user_state.mem 5 = some (some "astana") ∧
     (fun _ : String => FetchRes.err) (cityOf (some "astana")) = FetchRes.err) ∧
    ((lookupKey (send_morning (fun _ => .err) (fun _ => true) one_user_state).1.mem 5 =
        lookupKey one_user_state.mem 5 ∧
      ∀ a ∈ (send_morning (fun _ => .err) (fun _ => true) one_user_state).2, a.1 ≠ 5) ∧
     (lookupKey (send_evening (fun _ => .err) (fun _ => true) one_user_state).1.mem 5 =
        lookupKey one_user_state.mem 5 ∧
      ∀ a ∈ (send_evening (fun _ => .err) (fun _ => true) one_user_state).2, a.1 ≠ 5)) :=
  ⟨⟨by decide, by decide, rfl⟩,
   c2_skipped_city_untouched (fun _ => .err) (fun _ => true) one_user_state 5
     (some "astana") (by decide) (by decide) (Or.inl rfl)⟩
